import Mathlib

/-!
Verification development for an IPTV playlist aggregator and checker.

The program ingests playlist documents, merges duplicate channel listings by a
canonical-name key, and probes each stream URL, re-ranking the sources of a
channel by a scoring function.  The embedding below translates the relevant
source functions into Lean: strings are modelled as lists of characters, the
JavaScript regular-expression rewrites of the normalizer are modelled as
explicit scanners with the same non-overlapping left-to-right replacement
semantics as String.prototype.replace with a global flag, and the two pieces of
React state mutation in the check cycle (the synchronous marking pass and the
per-batch write-back) are modelled as pure state transformers on the channel
list.  Opaque random identifiers are modelled as a deterministic counter;
network probe outcomes are an explicit input to the probe-result classifier.
-/

namespace TvSS

/-- Strings are modelled as lists of characters. -/
abbrev Str := List Char

/-- Whitespace class of JavaScript (regex class backslash-s and String.trim),
restricted to its ASCII members, which are the only ones the inputs in scope
use. -/
def isJsSpace (c : Char) : Bool :=
  c = ' ' || c = '\t' || c = '\n' || c = '\r' || c = '\x0b' || c = '\x0c'

/-- Model of String.prototype.trim. -/
def jsTrim (s : Str) : Str :=
  ((s.dropWhile isJsSpace).reverse.dropWhile isJsSpace).reverse

/-- Characters after the first occurrence of `cl`, when one exists. -/
def afterClose (cl : Char) : Str → Option Str
  | [] => none
  | c :: cs => if c = cl then some cs else afterClose cl cs

/-- Fuelled scanner for the bracket-stripping rewrites of the normalizer
(step 1): each rewrite removes every non-overlapping run from an opening
delimiter through the nearest closing delimiter, scanning left to right and
never rescanning emitted output, exactly as a global lazy-dot regex
replacement does.  The fuel is the length of the input, which one unit of
progress per step never exhausts. -/
def stripBracketedF (op cl : Char) : Nat → Str → Str
  | 0, cs => cs
  | _ + 1, [] => []
  | fuel + 1, c :: cs =>
    if c = op then
      match afterClose cl cs with
      | some rest => stripBracketedF op cl fuel rest
      | none => c :: cs
    else c :: stripBracketedF op cl fuel cs

/-- Removal of bracketed annotations, one delimiter pair at a time. -/
def stripBracketed (op cl : Char) (s : Str) : Str :=
  stripBracketedF op cl s.length s

/-- Matcher for the CCTV canonicalization pattern of the normalizer (step 2):
literal CCTV, optional whitespace, an optional hyphen, optional whitespace,
a nonempty digit run, and an optional trailing plus sign.  On success it
returns the digit run (with the plus sign, when present) and the rest of the
input after the match. -/
def matchCCTV : Str → Option (Str × Str)
  | 'C' :: 'C' :: 'T' :: 'V' :: rest =>
    let r1 := rest.dropWhile isJsSpace
    let r2 := match r1 with
      | '-' :: t => t
      | _ => r1
    let r3 := r2.dropWhile isJsSpace
    let digits := r3.takeWhile (fun c => c.isDigit)
    let r4 := r3.dropWhile (fun c => c.isDigit)
    if digits = [] then none
    else
      match r4 with
      | '+' :: r5 => some (digits ++ ['+'], r5)
      | _ => some (digits, r4)
  | _ => none

/-- Fuelled global rewrite of every CCTV pattern occurrence to the canonical
form CCTV-digits, continuing after each replacement without rescanning it. -/
def rewriteCCTVF : Nat → Str → Str
  | 0, cs => cs
  | _ + 1, [] => []
  | fuel + 1, c :: cs =>
    match matchCCTV (c :: cs) with
    | some (num, rest) => 'C' :: 'C' :: 'T' :: 'V' :: '-' :: (num ++ rewriteCCTVF fuel rest)
    | none => c :: rewriteCCTVF fuel cs

/-- Canonicalization of CCTV channel numbering (normalizer step 2). -/
def rewriteCCTV (s : Str) : Str :=
  rewriteCCTVF s.length s

/-- One position of a noise-token pattern: a literal character, or the
any-character wildcard that an unescaped dot denotes in the source pattern
H.265. -/
inductive PatChar
  | lit (c : Char)
  | anyChar
deriving DecidableEq

/-- Pattern consisting only of literal characters. -/
def patOfString (s : String) : List PatChar :=
  s.toList.map PatChar.lit

/-- Match a pattern against the front of the input, returning the rest of the
input after the match. -/
def matchPat : List PatChar → Str → Option Str
  | [], cs => some cs
  | _ :: _, [] => none
  | PatChar.lit a :: ps, c :: cs => if c = a then matchPat ps cs else none
  | PatChar.anyChar :: ps, _ :: cs => matchPat ps cs

/-- Fuelled global removal of every non-overlapping occurrence of a pattern,
scanning left to right and never rescanning the boundary of a removal, as a
global regex replacement with the empty string does. -/
def removePatF : Nat → List PatChar → Str → Str
  | 0, _, cs => cs
  | _ + 1, _, [] => []
  | fuel + 1, p, c :: cs =>
    match matchPat p (c :: cs) with
    | some rest => removePatF fuel p rest
    | none => c :: removePatF fuel p cs

/-- Global removal of one noise token. -/
def removePat (p : List PatChar) (s : Str) : Str :=
  removePatF s.length p s

/-- Fixed vocabulary of noise tokens of the normalizer (step 3), in source
order.  The token written H.265 in the source is compiled as a regular
expression, so its dot matches any character. -/
def keywords : List (List PatChar) :=
  [ patOfString "HD", patOfString "FHD", patOfString "SD", patOfString "UHD",
    patOfString "HEVC",
    [PatChar.lit 'H', PatChar.anyChar, PatChar.lit '2', PatChar.lit '6', PatChar.lit '5'],
    patOfString "H264",
    patOfString "IPTV", patOfString "LIVE", patOfString "直播",
    patOfString "高清", patOfString "超清", patOfString "标清", patOfString "频道",
    patOfString "TEST", patOfString "测试",
    patOfString "IPV6", patOfString "IPV4",
    patOfString "1080P", patOfString "720P", patOfString "4K", patOfString "8K",
    patOfString "50FPS", patOfString "60FPS",
    patOfString "电信", patOfString "联通", patOfString "移动", patOfString "酒店" ]

/-- Removal of a vocabulary of noise tokens, one token at a time, in list
order, each pass operating on the output of the previous one, as the forEach
loop of the source does. -/
def removeKeywords (ks : List (List PatChar)) (s : Str) : Str :=
  ks.foldl (fun acc k => removePat k acc) s

/-- Removal of trailing separator characters (normalizer step 5). -/
def stripTrailingSeps (s : Str) : Str :=
  (s.reverse.dropWhile (fun c => c = '-' || c = '_')).reverse

/-- Model of normalizeName: upper-case, strip bracketed annotations for the
three delimiter pairs, canonicalize CCTV numbering, remove the noise-token
vocabulary, remove all whitespace, strip trailing separators, and trim.
Char.toUpper models String.prototype.toUpperCase on the ASCII and CJK
characters the inputs in scope use (CJK characters are fixed points of
both). -/
def normalizeName (name : Str) : Str :=
  let n1 := name.map Char.toUpper
  let n2 := stripBracketed '[' ']' n1
  let n3 := stripBracketed '（' '）' n2
  let n4 := stripBracketed '(' ')' n3
  let n5 := rewriteCCTV n4
  let n6 := removeKeywords keywords n5
  let n7 := n6.filter (fun c => !(isJsSpace c))
  let n8 := stripTrailingSeps n7
  jsTrim n8

example : normalizeName "CCTV1".toList = "CCTV-1".toList := by decide
example : normalizeName "CCTV 1".toList = "CCTV-1".toList := by decide
example : normalizeName "CCTV-1".toList = "CCTV-1".toList := by decide
example : normalizeName "CCTV-1 [IPv6] HD".toList = "CCTV-1".toList := by decide
example : normalizeName "".toList = [] := by decide
example : normalizeName "A".toList = ['A'] := by decide
example : removeKeywords keywords "FHD".toList = "F".toList := by decide

/-! ## Data model (types.ts) -/

/-- Status enumeration of a source. -/
inductive Status
  | idle
  | checking
  | online
  | offline
  | error
deriving DecidableEq

/-- One candidate stream endpoint.  The opaque random identifier of the
source program is modelled as a natural number issued by a counter; latency is
an optional number of milliseconds (absence models null); an absent resolution
models the field being undefined. -/
structure Source where
  id : Nat
  url : Str
  status : Status
  latency : Option Nat
  resolution : Option Str
deriving DecidableEq

/-- Category tag of a playlist document. -/
inductive Category
  | china
  | international
  | other
deriving DecidableEq

/-- One deduplicated channel of the catalog. -/
structure Channel where
  id : Nat
  name : Str
  group : Str
  category : Category
  sources : List Source
  bestSource : Option Source
deriving DecidableEq

/-! ## Structured text parser (parseAndAggregate line loop) -/

/-- One parsed (name, group, url) record. -/
structure PRecord where
  name : Str
  group : Str
  url : Str
deriving DecidableEq

/-- Pending metadata state of the line loop: the currentName and currentGroup
variables. -/
structure PState where
  currentName : Str
  currentGroup : Str
deriving DecidableEq

/-- Split on a separator character, as String.prototype.split with a
single-character separator: the result is always nonempty, and empty fields
are kept. -/
def splitCh (sep : Char) : Str → List Str
  | [] => [[]]
  | c :: cs =>
    if c = sep then [] :: splitCh sep cs
    else
      match splitCh sep cs with
      | [] => [[c]]
      | g :: gs => (c :: g) :: gs

/-- Capture of an attribute pattern such as the group-title attribute: find
the leftmost occurrence of the opening text that is followed by a closing
double quote, and return the characters up to that quote.  A later occurrence
is tried when an earlier one has no closing quote, as regex backtracking
does. -/
def captureAttr (pat : Str) : Str → Option Str
  | [] => none
  | c :: cs =>
    if pat.isPrefixOf (c :: cs) then
      let rest := (c :: cs).drop pat.length
      if (rest.dropWhile (fun d => d ≠ '"')) = [] then captureAttr pat cs
      else some (rest.takeWhile (fun d => d ≠ '"'))
    else captureAttr pat cs

/-- Processing of one raw line of a playlist document, mirroring the body of
the line loop of parseAndAggregate: metadata lines update the pending state
and emit nothing; inline name-comma-url lines emit a record with group Other
and reset the pending name; bare URL lines emit a record with the pending
name and group, and leave the pending state unchanged; every other line is
skipped. -/
def processLine (st : PState) (raw : Str) : PState × Option PRecord :=
  let line := jsTrim raw
  if line = [] then (st, none)
  else if ("#EXTINF:".toList).isPrefixOf line then
    let currentGroup :=
      match captureAttr ("group-title=\"".toList) line with
      | some g => g
      | none => "Uncategorized".toList
    let parts := splitCh ',' line
    let trailingName := jsTrim (parts.getLastD [])
    let currentName :=
      match captureAttr ("tvg-name=\"".toList) line with
      | some n => if n = [] then trailingName else n
      | none => trailingName
    ({ currentName := currentName, currentGroup := currentGroup }, none)
  else if line.contains ',' && !(("#".toList).isPrefixOf line) then
    let parts := splitCh ',' line
    let possibleUrl := jsTrim (parts.getLastD [])
    if ("http".toList).isPrefixOf possibleUrl || ("rtmp".toList).isPrefixOf possibleUrl
        || ("p2p".toList).isPrefixOf possibleUrl then
      ({ st with currentName := [] },
       some { name := jsTrim (List.intercalate [','] parts.dropLast),
              group := "Other".toList, url := possibleUrl })
    else (st, none)
  else if !(("#".toList).isPrefixOf line)
      && (("http".toList).isPrefixOf line || ("rtmp".toList).isPrefixOf line) then
    if st.currentName ≠ [] then
      (st, some { name := st.currentName, group := st.currentGroup, url := line })
    else (st, none)
  else (st, none)

/-- Records emitted by a run of the line loop from a given pending state, in
emission order.  The source interleaves emission with aggregation; the
aggregation below consumes this sequence in the same order, so the two
factorings agree. -/
def parseLines (st : PState) : List Str → List PRecord
  | [] => []
  | l :: ls =>
    match processLine st l with
    | (st1, some r) => r :: parseLines st1 ls
    | (st1, none) => parseLines st1 ls

/-- Records of one playlist document: split into lines and run the line loop
from the empty pending state. -/
def parseRecords (content : Str) : List PRecord :=
  parseLines { currentName := [], currentGroup := [] } (splitCh '\n' content)

example :
    parseRecords "CCTV-1,http://a".toList
      = [{ name := "CCTV-1".toList, group := "Other".toList, url := "http://a".toList }] := by
  decide

example :
    parseRecords "#EXTINF:-1 group-title=\"News\",CCTV 1\nhttp://b".toList
      = [{ name := "CCTV 1".toList, group := "News".toList, url := "http://b".toList }] := by
  decide

/-! ## Aggregator (addChannelToMap and the channel map) -/

/-- Lookup in the insertion-ordered channel map, modelling Map.prototype.get. -/
def mlookup (k : Str) : List (Str × Channel) → Option Channel
  | [] => none
  | e :: m => if e.1 = k then some e.2 else mlookup k m

/-- In-place update of the channel stored at a key, modelling mutation of the
channel object held by the map: entry order is unchanged. -/
def updMap (k : Str) (f : Channel → Channel) (m : List (Str × Channel)) :
    List (Str × Channel) :=
  m.map (fun e => if e.1 = k then (e.1, f e.2) else e)

/-- Aggregation state: the insertion-ordered channel map plus the counter
that models generateId. -/
structure AggState where
  map : List (Str × Channel)
  nextId : Nat
deriving DecidableEq

/-- The channel literal built on first sight of a canonical key: the first
record sets the display name, the group (with the empty-group default of
Other), and the category; sources start empty and no best source is set. -/
def newChannel (st : AggState) (category : Category) (cleanName group : Str) : Channel :=
  { id := st.nextId, name := cleanName,
    group := if group = [] then "Other".toList else group,
    category := category, sources := [], bestSource := none }

/-- The find-or-create step of addChannelToMap: when the key is absent the
fresh channel is appended to the map (Map.prototype.set on a new key appends
in insertion order); when it is present nothing changes. -/
def ensureChannel (category : Category) (st : AggState) (key cleanName group : Str) :
    AggState :=
  match mlookup key st.map with
  | some _ => st
  | none =>
    { map := st.map ++ [(key, newChannel st category cleanName group)],
      nextId := st.nextId + 1 }

/-- The source literal pushed for a new url. -/
def freshSource (i : Nat) (url : Str) : Source :=
  { id := i, url := url, status := Status.idle, latency := none, resolution := none }

/-- The duplicate-url guard and push step of addChannelToMap: append a new
idle source to the channel at the key unless a source with exactly that url
(exact string equality) already exists on it. -/
def pushSource (st : AggState) (key url : Str) : AggState :=
  match mlookup key st.map with
  | none => st
  | some ch =>
    if ch.sources.any (fun s => s.url == url) then st
    else
      { map := updMap key
          (fun c => { c with sources := c.sources ++ [freshSource st.nextId url] }) st.map,
        nextId := st.nextId + 1 }

/-- Model of addChannelToMap: trim the display name, normalize it to the
canonical key, discard the record when the key is empty or shorter than two
characters, otherwise find-or-create the channel and push the source. -/
def addChannelToMap (category : Category) (st : AggState) (name group url : Str) :
    AggState :=
  let cleanName := jsTrim name
  let normalizedKey := normalizeName cleanName
  if normalizedKey = [] ∨ normalizedKey.length < 2 then st
  else pushSource (ensureChannel category st normalizedKey cleanName group) normalizedKey url

/-- Folding a record sequence into the aggregation state, in emission order. -/
def foldRecords (category : Category) (st : AggState) (rs : List PRecord) : AggState :=
  rs.foldl (fun st r => addChannelToMap category st r.name r.group r.url) st

/-- Aggregation over a list of playlist documents with their categories. -/
def aggregatePlaylists (pls : List (Str × Category)) : AggState :=
  pls.foldl (fun st p => foldRecords p.2 st (parseRecords p.1)) { map := [], nextId := 0 }

/-! ## Final catalog ordering -/

/-- Stable insertion of an element into a list: the element is placed before
the first entry it must strictly precede, so entries it ties with keep their
relative order.  A comparator-based Array.prototype.sort is stable, and the
stable result is unique, so insertion from the left reproduces it. -/
def insertBy (lt : α → α → Bool) (x : α) : List α → List α
  | [] => [x]
  | y :: ys => if lt x y then x :: y :: ys else y :: insertBy lt x ys

/-- Stable sort by a strict precedence test. -/
def sortBy (lt : α → α → Bool) (l : List α) : List α :=
  l.foldl (fun acc x => insertBy lt x acc) []

/-- Substring test, modelling String.prototype.includes. -/
def containsSub (pat : Str) : Str → Bool
  | [] => pat.isPrefixOf []
  | c :: cs => pat.isPrefixOf (c :: cs) || containsSub pat cs

/-- Code-point lexicographic three-way comparison.  This models
localeCompare with the zh-CN locale, whose exact collation is
environment-defined; no claim in scope depends on this tie-breaking order. -/
def lexCmp : Str → Str → Int
  | [], [] => 0
  | [], _ :: _ => -1
  | _ :: _, [] => 1
  | a :: as, b :: bs => if a < b then -1 else if b < a then 1 else lexCmp as bs

/-- The final catalog comparator: channels whose upper-cased name contains
CCTV first, then channels whose name contains the satellite marker, then the
locale comparison of names. -/
def chCmp (a b : Channel) : Int :=
  let isCCTVa := containsSub ("CCTV".toList) (a.name.map Char.toUpper)
  let isCCTVb := containsSub ("CCTV".toList) (b.name.map Char.toUpper)
  if isCCTVa && !isCCTVb then -1
  else if !isCCTVa && isCCTVb then 1
  else
    let isWSa := containsSub ("卫视".toList) a.name
    let isWSb := containsSub ("卫视".toList) b.name
    if isWSa && !isWSb then -1
    else if !isWSa && isWSb then 1
    else lexCmp a.name b.name

/-- Strict precedence for the catalog sort. -/
def chLt (a b : Channel) : Bool := chCmp a b < 0

/-- Final display ordering of the catalog. -/
def sortChannels (l : List Channel) : List Channel := sortBy chLt l

/-- Model of parseAndAggregate: fold every document into the channel map and
return its values in the final display ordering. -/
def parseAndAggregate (pls : List (Str × Category)) : List Channel :=
  sortChannels ((aggregatePlaylists pls).map.map (fun e => e.2))

example :
    (parseAndAggregate [("CCTV-1,http://a".toList, Category.china)]).map
        (fun c => (c.name, c.group, c.sources.map (fun s => s.url)))
      = [("CCTV-1".toList, "Other".toList, ["http://a".toList])] := by
  decide

example :
    (parseAndAggregate
        [("CCTV-1,http://a".toList, Category.china),
         ("#EXTINF:-1 group-title=\"News\",CCTV 1\nhttp://b".toList, Category.international)]).map
        (fun c => (c.name, c.sources.map (fun s => s.url)))
      = [("CCTV-1".toList, ["http://a".toList, "http://b".toList])] := by
  decide

/-! ## Probe scheduler (runCheck of the application component) -/

/-- One flattened check task. -/
structure Task where
  channelId : Nat
  sourceId : Nat
  url : Str
deriving DecidableEq

/-- Flattening every source of every target channel into the task list. -/
def flattenTasks (chs : List Channel) : List Task :=
  (chs.map (fun ch =>
    ch.sources.map (fun s => { channelId := ch.id, sourceId := s.id, url := s.url }))).flatten

/-- Update of the first entry of a list satisfying a test, modelling the
findIndex-then-assign pattern of the source; when no entry matches, the list
is unchanged. -/
def applyToFirst (p : α → Bool) (f : α → α) : List α → List α
  | [] => []
  | x :: xs => if p x then f x :: xs else x :: applyToFirst p f xs

/-- The source update of the synchronous marking pass: status checking,
latency cleared; every other field, the stale resolution included, is kept. -/
def markSourceChecking (s : Source) : Source :=
  { s with status := Status.checking, latency := none }

/-- Marking the source of one task as checking.  The bestSource field of the
channel is not touched by this pass. -/
def markTask (chs : List Channel) (t : Task) : List Channel :=
  applyToFirst (fun c => c.id == t.channelId)
    (fun ch =>
      if ch.sources.any (fun s => s.id == t.sourceId) then
        { ch with sources := applyToFirst (fun s => s.id == t.sourceId) markSourceChecking ch.sources }
      else ch) chs

/-- The synchronous marking pass over the whole task list (the first state
update of runCheck, before any network activity). -/
def markChecking (chs : List Channel) (ts : List Task) : List Channel :=
  ts.foldl markTask chs

/-- External outcome of one network probe: a successful response with its
elapsed time (nonnegative, since the clock is monotonic) and the first body
chunk when one could be read, a received non-success response, or a
transport, cross-origin, or timeout failure. -/
inductive ProbeOutcome
  | ok (latency : Nat) (chunk : Option Str)
  | notOk
  | failed
deriving DecidableEq

/-- Classified probe result written back into the catalog. -/
structure ProbeResult where
  channelId : Nat
  sourceId : Nat
  url : Str
  status : Status
  latency : Option Nat
  resolution : Option Str
deriving DecidableEq

/-- Digit run to number, as parseInt base ten on a digit capture. -/
def digitsToNat (ds : Str) : Nat :=
  ds.foldl (fun n c => n * 10 + (c.toNat - '0'.toNat)) 0

/-- Matcher for one RESOLUTION=widthxheight marker at the front of the input,
returning the height and the rest of the input after the match. -/
def matchResolutionAt (cs : Str) : Option (Nat × Str) :=
  if ("RESOLUTION=".toList).isPrefixOf cs then
    let rest := cs.drop ("RESOLUTION=".toList).length
    let w := rest.takeWhile (fun c => c.isDigit)
    let rest1 := rest.dropWhile (fun c => c.isDigit)
    if w = [] then none
    else
      match rest1 with
      | 'x' :: rest2 =>
        let h := rest2.takeWhile (fun c => c.isDigit)
        if h = [] then none
        else some (digitsToNat h, rest2.dropWhile (fun c => c.isDigit))
      | _ => none
  else none

/-- Heights of every non-overlapping resolution marker of the first body
chunk, left to right, as matchAll yields them. -/
def resolutionHeights : Nat → Str → List Nat
  | 0, _ => []
  | _ + 1, [] => []
  | fuel + 1, c :: cs =>
    match matchResolutionAt (c :: cs) with
    | some (h, rest) => h :: resolutionHeights fuel rest
    | none => resolutionHeights fuel cs

/-- Resolution label sniffed from the first body chunk: the maximum height
across every marker, mapped to 1080P, 720P, or the height itself with a P
suffix; absent when the chunk has no marker. -/
def sniffResolution (text : Str) : Option Str :=
  match resolutionHeights text.length text with
  | [] => none
  | h :: t =>
    let maxHeight := t.foldl Nat.max h
    some (if maxHeight ≥ 1080 then "1080P".toList
          else if maxHeight ≥ 720 then "720P".toList
          else (toString maxHeight).toList ++ ['P'])

/-- Model of checkSource: classify one probe outcome into the result record
written back for the task.  A successful response is online with its elapsed
time and the opportunistically sniffed resolution; a non-success response is
offline with no latency and no resolution; a failure is error with no latency
and no resolution. -/
def checkSource (t : Task) (o : ProbeOutcome) : ProbeResult :=
  match o with
  | ProbeOutcome.ok lat chunk =>
    { channelId := t.channelId, sourceId := t.sourceId, url := t.url,
      status := Status.online, latency := some lat,
      resolution := match chunk with
        | some text => sniffResolution text
        | none => none }
  | ProbeOutcome.notOk =>
    { channelId := t.channelId, sourceId := t.sourceId, url := t.url,
      status := Status.offline, latency := none, resolution := none }
  | ProbeOutcome.failed =>
    { channelId := t.channelId, sourceId := t.sourceId, url := t.url,
      status := Status.error, latency := none, resolution := none }

/-- Model of getScore: online scores 100000 minus the latency (a null latency
counts as zero), error scores 50000, checking scores 100, idle and offline
score 0. -/
def getScore (s : Source) : Int :=
  match s.status with
  | Status.online => 100000 - Int.ofNat (s.latency.getD 0)
  | Status.error => 50000
  | Status.checking => 100
  | _ => 0

/-- Strict precedence for the source re-ranking: higher score first. -/
def srcLt (a b : Source) : Bool := getScore b < getScore a

/-- Re-ranking of the sources of a channel: the stable descending sort by
score that the comparator-based Array.prototype.sort performs. -/
def sortSources (l : List Source) : List Source := sortBy srcLt l

/-- The field overwrite of the batch write-back for one source: status,
latency, and resolution all come from the result record; id and url are
kept. -/
def updateSource (r : ProbeResult) (s : Source) : Source :=
  { s with status := r.status, latency := r.latency, resolution := r.resolution }

/-- Write-back of one probe result: find the owning channel, overwrite the
probed source, re-rank the sources, and set bestSource to the new first
element (head of the sorted list, absent only when the list is empty).  When
the channel or the source is not found, nothing changes. -/
def applyResult (chs : List Channel) (r : ProbeResult) : List Channel :=
  applyToFirst (fun c => c.id == r.channelId)
    (fun ch =>
      if ch.sources.any (fun s => s.id == r.sourceId) then
        let newSources := sortSources (applyToFirst (fun s => s.id == r.sourceId) (updateSource r) ch.sources)
        { ch with sources := newSources, bestSource := newSources.head? }
      else ch) chs

/-- Write-back of one batch of results, applied in order as the forEach of
the source does inside a single state update. -/
def writeBack (chs : List Channel) (rs : List ProbeResult) : List Channel :=
  rs.foldl applyResult chs

example :
    (sortSources
      [{ id := 1, url := [], status := Status.offline, latency := none, resolution := none },
       { id := 2, url := [], status := Status.checking, latency := none, resolution := none },
       { id := 3, url := [], status := Status.error, latency := none, resolution := none },
       { id := 4, url := [], status := Status.online, latency := some 300, resolution := none }]).map
        (fun s => s.id) = [4, 3, 2, 1] := by
  decide

example : sniffResolution "#EXT-X-STREAM-INF:RESOLUTION=1920x1080,".toList = some "1080P".toList := by
  decide

example : sniffResolution "no marker here".toList = none := by decide

/-! ## Infrastructure lemmas -/

theorem applyToFirst_mem {p : α → Bool} {f : α → α} :
    ∀ {l : List α} {y : α}, y ∈ applyToFirst p f l →
      y ∈ l ∨ ∃ x, x ∈ l ∧ p x = true ∧ y = f x := by
  intro l
  induction l with
  | nil => intro y hy; simp [applyToFirst] at hy
  | cons x xs ih =>
    intro y hy
    unfold applyToFirst at hy
    by_cases hp : p x = true
    · rw [if_pos hp] at hy
      rcases List.mem_cons.1 hy with h | h
      · exact Or.inr ⟨x, List.mem_cons_self x xs, hp, h⟩
      · exact Or.inl (List.mem_cons_of_mem x h)
    · rw [if_neg hp] at hy
      rcases List.mem_cons.1 hy with h | h
      · exact Or.inl (h ▸ List.mem_cons_self x xs)
      · rcases ih h with h' | ⟨z, hz, hpz, hyz⟩
        · exact Or.inl (List.mem_cons_of_mem x h')
        · exact Or.inr ⟨z, List.mem_cons_of_mem x hz, hpz, hyz⟩

theorem applyToFirst_hit {p : α → Bool} {f : α → α} :
    ∀ {l : List α}, (∃ x ∈ l, p x = true) →
      ∃ x, x ∈ l ∧ p x = true ∧ f x ∈ applyToFirst p f l := by
  intro l
  induction l with
  | nil => intro h; simp at h
  | cons x xs ih =>
    intro h
    unfold applyToFirst
    by_cases hp : p x = true
    · exact ⟨x, List.mem_cons_self x xs, hp, by rw [if_pos hp]; exact List.mem_cons_self _ _⟩
    · rcases h with ⟨z, hz, hpz⟩
      rcases List.mem_cons.1 hz with h' | h'
      · exact absurd (h' ▸ hpz) hp
      · rcases ih ⟨z, h', hpz⟩ with ⟨w, hw, hpw, hfw⟩
        exact ⟨w, List.mem_cons_of_mem x hw, hpw,
          by rw [if_neg hp]; exact List.mem_cons_of_mem x hfw⟩

theorem insertBy_perm (lt : α → α → Bool) (x : α) :
    ∀ l : List α, List.Perm (insertBy lt x l) (x :: l)
  | [] => List.Perm.refl _
  | y :: ys => by
    unfold insertBy
    by_cases h : lt x y = true
    · rw [if_pos h]
    · rw [if_neg h]
      exact ((insertBy_perm lt x ys).cons y).trans (List.Perm.swap x y ys)

theorem sortBy_fold_perm (lt : α → α → Bool) :
    ∀ (l acc : List α), List.Perm (List.foldl (fun a x => insertBy lt x a) acc l) (acc ++ l)
  | [], acc => by simp
  | x :: l, acc => by
    rw [List.foldl_cons]
    exact (sortBy_fold_perm lt l (insertBy lt x acc)).trans
      (((insertBy_perm lt x acc).append_right l).trans List.perm_middle.symm)

theorem sortBy_perm (lt : α → α → Bool) (l : List α) : List.Perm (sortBy lt l) l := by
  have := sortBy_fold_perm lt l []
  simpa [sortBy] using this

theorem mem_sortBy {lt : α → α → Bool} {l : List α} {a : α} :
    a ∈ sortBy lt l ↔ a ∈ l :=
  (sortBy_perm lt l).mem_iff

/-- Weak descending order by score. -/
def srcGe (x y : Source) : Prop := getScore y ≤ getScore x

/-- Strict descending order by score. -/
def srcGt (x y : Source) : Prop := getScore y < getScore x

theorem insertBy_srcLt_pairwise (x : Source) :
    ∀ {l : List Source}, l.Pairwise srcGe → (insertBy srcLt x l).Pairwise srcGe := by
  intro l
  induction l with
  | nil =>
    intro _
    simp [insertBy]
  | cons y ys ih =>
    intro h
    rw [List.pairwise_cons] at h
    unfold insertBy
    by_cases hlt : srcLt x y = true
    · rw [if_pos hlt]
      have hlt' : getScore y < getScore x := by simpa [srcLt] using hlt
      have hxy : srcGe x y := le_of_lt hlt'
      refine List.pairwise_cons.2 ⟨?_, List.pairwise_cons.2 h⟩
      intro z hz
      rcases List.mem_cons.1 hz with h' | h'
      · exact h' ▸ hxy
      · exact le_trans (h.1 z h') hxy
    · rw [if_neg hlt]
      have hyx : srcGe y x := by
        have h' : ¬ (getScore y < getScore x) := by
          intro hcon
          exact hlt (by simp [srcLt, hcon])
        exact not_lt.1 h'
      refine List.pairwise_cons.2 ⟨?_, ih h.2⟩
      intro z hz
      rcases List.mem_cons.1 ((insertBy_perm srcLt x ys).mem_iff.1 hz) with h' | h'
      · exact h' ▸ hyx
      · exact h.1 z h'

theorem sortSources_fold_pairwise :
    ∀ (l acc : List Source), acc.Pairwise srcGe →
      (List.foldl (fun a x => insertBy srcLt x a) acc l).Pairwise srcGe
  | [], _, h => h
  | x :: l, acc, h => by
    rw [List.foldl_cons]
    exact sortSources_fold_pairwise l _ (insertBy_srcLt_pairwise x h)

theorem sortSources_pairwise (l : List Source) : (sortSources l).Pairwise srcGe :=
  sortSources_fold_pairwise l [] List.Pairwise.nil

theorem sortSources_perm (l : List Source) : List.Perm (sortSources l) l :=
  sortBy_perm srcLt l

/-- Two permutation-equivalent lists that are both strictly sorted by score
are equal: with pairwise-distinct keys the sorted arrangement is unique. -/
theorem sorted_perm_unique :
    ∀ {l₁ l₂ : List Source}, List.Perm l₁ l₂ →
      l₁.Pairwise srcGt → l₂.Pairwise srcGt → l₁ = l₂ := by
  intro l₁
  induction l₁ with
  | nil =>
    intro l₂ hp _ _
    exact (List.nil_perm.1 hp).symm
  | cons x xs ih =>
    intro l₂ hp h1 h2
    cases l₂ with
    | nil => exact absurd (List.perm_nil.1 hp) (by simp)
    | cons y ys =>
      rw [List.pairwise_cons] at h1 h2
      have hxy : x = y := by
        by_contra hne
        have hx2 : x ∈ y :: ys := hp.subset (List.mem_cons_self x xs)
        have hxys : x ∈ ys := by
          rcases List.mem_cons.1 hx2 with h | h
          · exact absurd h hne
          · exact h
        have hy1 : y ∈ x :: xs := hp.symm.subset (List.mem_cons_self y ys)
        rcases List.mem_cons.1 hy1 with h | h
        · exact absurd h.symm hne
        · have ha : srcGt x y := h1.1 y h
          have hb : srcGt y x := h2.1 x hxys
          exact absurd (lt_trans ha hb) (lt_irrefl _)
      subst hxy
      have := ih (hp.cons_inv) h1.2 h2.2
      rw [this]

/-! ## Aggregation invariants -/

theorem mlookup_append_some {k : Str} :
    ∀ {m : List (Str × Channel)} {c : Channel}, mlookup k m = some c →
      ∀ m', mlookup k (m ++ m') = some c := by
  intro m
  induction m with
  | nil => intro c h; simp [mlookup] at h
  | cons e m ih =>
    intro c h m'
    by_cases he : e.1 = k
    · simp only [mlookup, if_pos he] at h ⊢
      exact h
    · simp only [mlookup, if_neg he] at h ⊢
      exact ih h m'

theorem mlookup_append_none {k : Str} :
    ∀ {m : List (Str × Channel)}, mlookup k m = none →
      ∀ m', mlookup k (m ++ m') = mlookup k m' := by
  intro m
  induction m with
  | nil => intro _ m'; simp [mlookup]
  | cons e m ih =>
    intro h m'
    by_cases he : e.1 = k
    · simp only [mlookup, if_pos he] at h
      exact Option.noConfusion h
    · simp only [mlookup, if_neg he] at h ⊢
      exact ih h m'

theorem mlookup_updMap_self (k : Str) (f : Channel → Channel) :
    ∀ m : List (Str × Channel), mlookup k (updMap k f m) = (mlookup k m).map f := by
  intro m
  induction m with
  | nil => simp [mlookup, updMap]
  | cons e m ih =>
    by_cases he : e.1 = k
    · simp [updMap, mlookup, he]
    · simp only [updMap, List.map_cons, if_neg he, mlookup]
      exact ih

theorem mlookup_updMap_ne {k k' : Str} (h : k' ≠ k) (f : Channel → Channel) :
    ∀ m : List (Str × Channel), mlookup k (updMap k' f m) = mlookup k m := by
  intro m
  induction m with
  | nil => simp [mlookup, updMap]
  | cons e m ih =>
    by_cases he : e.1 = k'
    · have : e.1 ≠ k := he ▸ h
      simp only [updMap, List.map_cons, if_pos he, mlookup, if_neg this]
      simpa [updMap] using ih
    · simp only [updMap, List.map_cons, if_neg he, mlookup]
      by_cases hk : e.1 = k
      · rw [if_pos hk, if_pos hk]
      · rw [if_neg hk, if_neg hk]
        simpa [updMap] using ih

theorem mem_updMap {k : Str} {f : Channel → Channel} {m : List (Str × Channel)}
    {e : Str × Channel} (he : e ∈ updMap k f m) :
    e ∈ m ∨ ∃ e', e' ∈ m ∧ e = (e'.1, f e'.2) := by
  rcases List.mem_map.1 he with ⟨e', he', hfe⟩
  by_cases hk : e'.1 = k
  · right
    exact ⟨e', he', by rw [← hfe]; simp [hk]⟩
  · left
    rw [← hfe]
    simpa [hk] using he'

/-- Invariant of every channel produced by aggregation: no best source, and
every source fresh (idle, no latency, no resolution). -/
def initialChannelInv (ch : Channel) : Prop :=
  ch.bestSource = none ∧
    ∀ s ∈ ch.sources, s.status = Status.idle ∧ s.latency = none ∧ s.resolution = none

theorem ensureChannel_inv {category : Category} {st : AggState} {key cleanName group : Str}
    (h : ∀ e ∈ st.map, initialChannelInv e.2) :
    ∀ e ∈ (ensureChannel category st key cleanName group).map, initialChannelInv e.2 := by
  intro e he
  cases hl : mlookup key st.map with
  | some ch =>
    simp only [ensureChannel, hl] at he
    exact h e he
  | none =>
    simp only [ensureChannel, hl] at he
    rcases List.mem_append.1 he with he' | he'
    · exact h e he'
    · rw [List.mem_singleton.1 he']
      exact ⟨rfl, by simp [newChannel]⟩

theorem pushSource_inv {st : AggState} {key url : Str}
    (h : ∀ e ∈ st.map, initialChannelInv e.2) :
    ∀ e ∈ (pushSource st key url).map, initialChannelInv e.2 := by
  intro e he
  cases hl : mlookup key st.map with
  | none =>
    simp only [pushSource, hl] at he
    exact h e he
  | some ch =>
    simp only [pushSource, hl] at he
    by_cases hdup : ch.sources.any (fun s => s.url == url) = true
    · rw [if_pos hdup] at he
      exact h e he
    · rw [if_neg hdup] at he
      rcases mem_updMap (show e ∈ updMap key
          (fun c => { c with sources := c.sources ++ [freshSource st.nextId url] }) st.map
          from he) with he' | ⟨e', he', rfl⟩
      · exact h e he'
      · refine ⟨(h e' he').1, ?_⟩
        intro s hs
        rcases List.mem_append.1 hs with hs | hs
        · exact (h e' he').2 s hs
        · rw [List.mem_singleton.1 hs]
          exact ⟨rfl, rfl, rfl⟩

theorem addChannelToMap_inv {category : Category} {st : AggState} {name group url : Str}
    (h : ∀ e ∈ st.map, initialChannelInv e.2) :
    ∀ e ∈ (addChannelToMap category st name group url).map, initialChannelInv e.2 := by
  intro e he
  simp only [addChannelToMap] at he
  by_cases hg : normalizeName (jsTrim name) = [] ∨ (normalizeName (jsTrim name)).length < 2
  · rw [if_pos hg] at he
    exact h e he
  · rw [if_neg hg] at he
    exact pushSource_inv (ensureChannel_inv h) e he

theorem foldRecords_cons (category : Category) (st : AggState) (r : PRecord)
    (rs : List PRecord) :
    foldRecords category st (r :: rs)
      = foldRecords category (addChannelToMap category st r.name r.group r.url) rs := by
  simp only [foldRecords, List.foldl_cons]

theorem foldRecords_inv {category : Category} :
    ∀ (rs : List PRecord) {st : AggState},
      (∀ e ∈ st.map, initialChannelInv e.2) →
      ∀ e ∈ (foldRecords category st rs).map, initialChannelInv e.2
  | [], _, h => h
  | _ :: rs, _, h => by
    rw [foldRecords_cons]
    exact foldRecords_inv rs (addChannelToMap_inv h)

theorem aggFold_inv :
    ∀ (pls : List (Str × Category)) {st : AggState},
      (∀ e ∈ st.map, initialChannelInv e.2) →
      ∀ e ∈ (pls.foldl (fun st p => foldRecords p.2 st (parseRecords p.1)) st).map,
        initialChannelInv e.2
  | [], _, h => h
  | _ :: pls, _, h => by
    rw [List.foldl_cons]
    exact aggFold_inv pls (foldRecords_inv _ h)

theorem parseAndAggregate_inv {pls : List (Str × Category)} {ch : Channel}
    (h : ch ∈ parseAndAggregate pls) : initialChannelInv ch := by
  rw [parseAndAggregate] at h
  have h1 := mem_sortBy.1 h
  rcases List.mem_map.1 h1 with ⟨e, he, rfl⟩
  exact aggFold_inv pls (by intro e' he'; simp at he') e he

/-! ## Aggregation idempotence machinery -/

theorem mlookup_cons_self (k : Str) (c : Channel) (m : List (Str × Channel)) :
    mlookup k ((k, c) :: m) = some c := by
  simp [mlookup]

/-- A state covers a record when either its key is unusable (the record is
discarded) or the channel at its key already holds its url: adding such a
record changes nothing. -/
def covers (st : AggState) (name url : Str) : Prop :=
  ¬(normalizeName (jsTrim name) = [] ∨ (normalizeName (jsTrim name)).length < 2) →
    ∃ ch, mlookup (normalizeName (jsTrim name)) st.map = some ch ∧
      url ∈ ch.sources.map (fun s => s.url)

theorem mlookup_ensureChannel {category : Category} {st : AggState}
    {key cleanName group : Str} {k : Str} {ch : Channel}
    (h : mlookup k st.map = some ch) :
    mlookup k (ensureChannel category st key cleanName group).map = some ch := by
  cases hl : mlookup key st.map with
  | some _ =>
    simp only [ensureChannel, hl]
    exact h
  | none =>
    simp only [ensureChannel, hl]
    exact mlookup_append_some h _

theorem mlookup_pushSource {st : AggState} {key url : Str} {k : Str} {ch : Channel}
    (h : mlookup k st.map = some ch) :
    ∃ ch', mlookup k (pushSource st key url).map = some ch' ∧
      ∀ u ∈ ch.sources.map (fun s => s.url), u ∈ ch'.sources.map (fun s => s.url) := by
  cases hl : mlookup key st.map with
  | none =>
    refine ⟨ch, ?_, fun u hu => hu⟩
    simp only [pushSource, hl]
    exact h
  | some ch2 =>
    by_cases hdup : ch2.sources.any (fun s => s.url == url) = true
    · refine ⟨ch, ?_, fun u hu => hu⟩
      simp only [pushSource, hl, if_pos hdup]
      exact h
    · by_cases hk : k = key
      · subst hk
        have hc : ch = ch2 := Option.some.inj (h.symm.trans hl)
        subst hc
        refine ⟨{ ch with sources := ch.sources ++ [freshSource st.nextId url] }, ?_, ?_⟩
        · simp only [pushSource, hl, if_neg hdup]
          rw [mlookup_updMap_self, h]
          rfl
        · intro u hu
          rw [List.map_append]
          exact List.mem_append_left _ hu
      · refine ⟨ch, ?_, fun u hu => hu⟩
        simp only [pushSource, hl, if_neg hdup]
        rw [mlookup_updMap_ne (fun hc => hk hc.symm)]
        exact h

theorem addChannelToMap_mono {category : Category} {st : AggState}
    {name group url : Str} {k : Str} {ch : Channel}
    (h : mlookup k st.map = some ch) :
    ∃ ch', mlookup k (addChannelToMap category st name group url).map = some ch' ∧
      ∀ u ∈ ch.sources.map (fun s => s.url), u ∈ ch'.sources.map (fun s => s.url) := by
  simp only [addChannelToMap]
  by_cases hg : normalizeName (jsTrim name) = [] ∨ (normalizeName (jsTrim name)).length < 2
  · rw [if_pos hg]
    exact ⟨ch, h, fun u hu => hu⟩
  · rw [if_neg hg]
    exact mlookup_pushSource (mlookup_ensureChannel h)

theorem covers_addChannelToMap {st : AggState} {name url : Str}
    (h : covers st name url) (category : Category) (n g u : Str) :
    covers (addChannelToMap category st n g u) name url := by
  intro hu
  rcases h hu with ⟨ch, hch, hurl⟩
  rcases addChannelToMap_mono hch with ⟨ch', hch', hsub⟩
  exact ⟨ch', hch', hsub _ hurl⟩

theorem mlookup_ensureChannel_self (category : Category) (st : AggState)
    (key cleanName group : Str) :
    ∃ ch, mlookup key (ensureChannel category st key cleanName group).map = some ch := by
  cases hl : mlookup key st.map with
  | some ch =>
    refine ⟨ch, ?_⟩
    simp only [ensureChannel, hl]
  | none =>
    refine ⟨newChannel st category cleanName group, ?_⟩
    simp only [ensureChannel, hl]
    rw [mlookup_append_none hl]
    exact mlookup_cons_self _ _ _

theorem pushSource_covers {st : AggState} {key : Str} {ch : Channel}
    (h : mlookup key st.map = some ch) (url : Str) :
    ∃ ch', mlookup key (pushSource st key url).map = some ch' ∧
      url ∈ ch'.sources.map (fun s => s.url) := by
  by_cases hdup : ch.sources.any (fun s => s.url == url) = true
  · refine ⟨ch, ?_, ?_⟩
    · simp only [pushSource, h, if_pos hdup]
    · rcases List.any_eq_true.1 hdup with ⟨s, hs, hsu⟩
      have hsu' : s.url = url := by simpa using hsu
      exact List.mem_map.2 ⟨s, hs, hsu'⟩
  · refine ⟨{ ch with sources := ch.sources ++ [freshSource st.nextId url] }, ?_, ?_⟩
    · simp only [pushSource, h, if_neg hdup]
      rw [mlookup_updMap_self, h]
      rfl
    · rw [List.map_append]
      refine List.mem_append_right _ ?_
      simp [freshSource]

theorem addChannelToMap_covers (category : Category) (st : AggState)
    (name group url : Str) :
    covers (addChannelToMap category st name group url) name url := by
  intro hu
  rcases mlookup_ensureChannel_self category st (normalizeName (jsTrim name)) (jsTrim name)
    group with ⟨ch, hch⟩
  rcases pushSource_covers hch url with ⟨ch', hch', hurl⟩
  refine ⟨ch', ?_, hurl⟩
  simp only [addChannelToMap]
  rw [if_neg hu]
  exact hch'

theorem addChannelToMap_of_covers {st : AggState} {name url : Str}
    (h : covers st name url) (category : Category) (group : Str) :
    addChannelToMap category st name group url = st := by
  simp only [addChannelToMap]
  by_cases hu : normalizeName (jsTrim name) = [] ∨ (normalizeName (jsTrim name)).length < 2
  · rw [if_pos hu]
  · rw [if_neg hu]
    rcases h hu with ⟨ch, hch, hurl⟩
    have hens : ensureChannel category st (normalizeName (jsTrim name)) (jsTrim name) group
        = st := by
      simp only [ensureChannel, hch]
    rw [hens]
    have hdup : ch.sources.any (fun s => s.url == url) = true := by
      rcases List.mem_map.1 hurl with ⟨s, hs, hsu⟩
      exact List.any_eq_true.2 ⟨s, hs, by simp [hsu]⟩
    simp only [pushSource, hch, if_pos hdup]

theorem foldRecords_covers_mono {category : Category} {st : AggState}
    {rs : List PRecord} {name url : Str} (h : covers st name url) :
    covers (foldRecords category st rs) name url := by
  induction rs generalizing st with
  | nil => exact h
  | cons r rs ih =>
    rw [foldRecords_cons]
    exact ih (covers_addChannelToMap h category r.name r.group r.url)

theorem foldRecords_covers {category : Category} :
    ∀ {rs : List PRecord} {st : AggState} (r : PRecord), r ∈ rs →
      covers (foldRecords category st rs) r.name r.url := by
  intro rs
  induction rs with
  | nil =>
    intro st r hr
    simp at hr
  | cons r0 rs ih =>
    intro st r hr
    rw [foldRecords_cons]
    rcases List.mem_cons.1 hr with rfl | hr'
    · exact foldRecords_covers_mono
        (addChannelToMap_covers category st r.name r.group r.url)
    · exact ih r hr'

theorem foldRecords_absorb {category : Category} {st : AggState} {rs : List PRecord}
    (h : ∀ r ∈ rs, covers st r.name r.url) :
    foldRecords category st rs = st := by
  induction rs with
  | nil => rfl
  | cons r rs ih =>
    rw [foldRecords_cons,
      addChannelToMap_of_covers (h r (List.mem_cons_self r rs)) category r.group]
    exact ih (fun r' hr' => h r' (List.mem_cons_of_mem _ hr'))

theorem foldRecords_idem (category : Category) (st : AggState) (rs : List PRecord) :
    foldRecords category (foldRecords category st rs) rs = foldRecords category st rs :=
  foldRecords_absorb (fun r hr => foldRecords_covers r hr)

theorem aggregate_pair_idem (content : Str) (cat : Category) :
    aggregatePlaylists [(content, cat), (content, cat)]
      = aggregatePlaylists [(content, cat)] := by
  simp only [aggregatePlaylists, List.foldl_cons, List.foldl_nil]
  exact foldRecords_idem cat _ (parseRecords content)

/-! ## Scheduler lemmas -/

theorem applyResult_mem {chs : List Channel} {r : ProbeResult} {ch : Channel}
    (h : ch ∈ applyResult chs r) :
    ch ∈ chs ∨ ch.bestSource = ch.sources.head? := by
  rcases applyToFirst_mem h with h' | ⟨x, hx, _, rfl⟩
  · exact Or.inl h'
  · by_cases hs : x.sources.any (fun s => s.id == r.sourceId) = true
    · right
      simp [hs]
    · left
      simpa [hs] using hx

theorem writeBack_cons (chs : List Channel) (r : ProbeResult) (rs : List ProbeResult) :
    writeBack chs (r :: rs) = writeBack (applyResult chs r) rs := rfl

theorem writeBack_mem :
    ∀ {rs : List ProbeResult} {chs : List Channel} {ch : Channel},
      ch ∈ writeBack chs rs → ch ∈ chs ∨ ch.bestSource = ch.sources.head?
  | [], _, _, h => Or.inl h
  | r :: rs, chs, ch, h => by
    rw [writeBack_cons] at h
    rcases writeBack_mem h with h' | h'
    · exact applyResult_mem h'
    · exact Or.inr h'

/-- The latency rule of the data model: a present latency forces online
status. -/
def latencyOnlyWhenOnline (s : Source) : Prop :=
  s.latency ≠ none → s.status = Status.online

instance (s : Source) : Decidable (latencyOnlyWhenOnline s) := by
  unfold latencyOnlyWhenOnline
  infer_instance

theorem markTask_latInv {chs : List Channel} {t : Task}
    (h : ∀ ch ∈ chs, ∀ s ∈ ch.sources, latencyOnlyWhenOnline s) :
    ∀ ch ∈ markTask chs t, ∀ s ∈ ch.sources, latencyOnlyWhenOnline s := by
  intro ch hch s hs
  rcases applyToFirst_mem hch with h' | ⟨x, hx, _, rfl⟩
  · exact h ch h' s hs
  · by_cases hany : x.sources.any (fun s => s.id == t.sourceId) = true
    · simp only [hany, if_true] at hs
      rcases applyToFirst_mem hs with hs' | ⟨s0, hs0, _, rfl⟩
      · exact h x hx s hs'
      · intro hcon
        exact absurd rfl hcon
    · simp only [hany] at hs
      rw [if_neg (by simp [hany])] at hs
      exact h x hx s hs

theorem markChecking_cons (chs : List Channel) (t : Task) (ts : List Task) :
    markChecking chs (t :: ts) = markChecking (markTask chs t) ts := rfl

theorem markChecking_latInv :
    ∀ (ts : List Task) {chs : List Channel},
      (∀ ch ∈ chs, ∀ s ∈ ch.sources, latencyOnlyWhenOnline s) →
      ∀ ch ∈ markChecking chs ts, ∀ s ∈ ch.sources, latencyOnlyWhenOnline s
  | [], _, h => h
  | t :: ts, chs, h => by
    rw [markChecking_cons]
    exact markChecking_latInv ts (markTask_latInv h)

theorem applyResult_latInv {chs : List Channel} {r : ProbeResult}
    (h : ∀ ch ∈ chs, ∀ s ∈ ch.sources, latencyOnlyWhenOnline s)
    (hr : r.latency ≠ none → r.status = Status.online) :
    ∀ ch ∈ applyResult chs r, ∀ s ∈ ch.sources, latencyOnlyWhenOnline s := by
  intro ch hch s hs
  rcases applyToFirst_mem hch with h' | ⟨x, hx, _, rfl⟩
  · exact h ch h' s hs
  · by_cases hany : x.sources.any (fun s => s.id == r.sourceId) = true
    · simp only [hany, if_true] at hs
      have hs2 := mem_sortBy.1 hs
      rcases applyToFirst_mem hs2 with hs' | ⟨s0, hs0, _, rfl⟩
      · exact h x hx s hs'
      · intro hcon
        exact hr hcon
    · simp only [hany] at hs
      rw [if_neg (by simp [hany])] at hs
      exact h x hx s hs

theorem writeBack_latInv :
    ∀ (rs : List ProbeResult) {chs : List Channel},
      (∀ ch ∈ chs, ∀ s ∈ ch.sources, latencyOnlyWhenOnline s) →
      (∀ r ∈ rs, r.latency ≠ none → r.status = Status.online) →
      ∀ ch ∈ writeBack chs rs, ∀ s ∈ ch.sources, latencyOnlyWhenOnline s
  | [], _, h, _ => h
  | r :: rs, chs, h, hr => by
    rw [writeBack_cons]
    exact writeBack_latInv rs
      (applyResult_latInv h (hr r (List.mem_cons_self r rs)))
      (fun r' hr' => hr r' (List.mem_cons_of_mem _ hr'))

/-! ## Concrete-shape aggregation lemmas -/

theorem addChannelToMap_nil_map {category : Category} {name group url : Str}
    (hg : ¬(normalizeName (jsTrim name) = [] ∨ (normalizeName (jsTrim name)).length < 2)) :
    addChannelToMap category { map := [], nextId := 0 } name group url
      = { map := [(normalizeName (jsTrim name),
            { id := 0, name := jsTrim name,
              group := if group = [] then "Other".toList else group,
              category := category,
              sources := [freshSource 1 url], bestSource := none })],
          nextId := 2 } := by
  simp only [addChannelToMap]
  rw [if_neg hg]
  clear hg
  generalize normalizeName (jsTrim name) = K
  generalize jsTrim name = N
  have h1 : ensureChannel category { map := [], nextId := 0 } K N group
      = { map := [(K, newChannel { map := [], nextId := 0 } category N group)],
          nextId := 1 } := by
    simp [ensureChannel, mlookup]
  rw [h1]
  have h2 := mlookup_cons_self K (newChannel { map := [], nextId := 0 } category N group) []
  simp only [pushSource, h2]
  simp [newChannel, updMap, freshSource]

theorem addChannelToMap_existing_push {category : Category} {st : AggState}
    {name group url key : Str} {ch : Channel}
    (hkey : normalizeName (jsTrim name) = key)
    (hg : ¬(key = [] ∨ key.length < 2))
    (hst : st.map = [(key, ch)])
    (hdup : ch.sources.any (fun s => s.url == url) = false) :
    addChannelToMap category st name group url
      = { map := [(key, { ch with sources := ch.sources ++ [freshSource st.nextId url] })],
          nextId := st.nextId + 1 } := by
  simp only [addChannelToMap, hkey]
  rw [if_neg hg]
  generalize jsTrim name = N
  have hl : mlookup key st.map = some ch := by
    rw [hst]
    exact mlookup_cons_self _ _ _
  have h1 : ensureChannel category st key N group = st := by
    simp only [ensureChannel, hl]
  rw [h1]
  simp only [pushSource, hl, hdup]
  rw [hst]
  simp [updMap]

/-! ## Parser line lemmas -/

theorem isPrefixOf_ne_nil {p t : Str} (hp : p ≠ []) (h : p.isPrefixOf t = true) :
    t ≠ [] := by
  rintro rfl
  cases p with
  | nil => exact hp rfl
  | cons c cs => exact absurd h (by simp [List.isPrefixOf])

theorem ne_nil_of_contains {t : Str} {c : Char} (h : t.contains c = true) : t ≠ [] := by
  rintro rfl
  simp at h

theorem hash_prefix_of_extinf {t : Str}
    (h : ("#EXTINF:".toList).isPrefixOf t = true) :
    ("#".toList).isPrefixOf t = true := by
  cases t with
  | nil => exact absurd h (by decide)
  | cons c cs =>
    have h' : (('#' : Char) == c && (("EXTINF:".toList).isPrefixOf cs)) = true := h
    have h1 : (('#' : Char) == c) = true := by
      cases hcc : ('#' : Char) == c with
      | true => rfl
      | false =>
        rw [hcc, Bool.false_and] at h'
        exact absurd h' (by decide)
    show (('#' : Char) == c && (([] : Str).isPrefixOf cs)) = true
    rw [h1, Bool.true_and]
    cases cs <;> rfl

/-- Conditions under which the line loop treats a raw line as a bare URL
line: no embedded comma, no comment marker, and a recognized scheme prefix. -/
def isBareUrlLine (u : Str) : Prop :=
  (jsTrim u).contains ',' = false ∧
    ("#".toList).isPrefixOf (jsTrim u) = false ∧
    (("http".toList).isPrefixOf (jsTrim u) = true ∨
      ("rtmp".toList).isPrefixOf (jsTrim u) = true)

instance (u : Str) : Decidable (isBareUrlLine u) := by
  unfold isBareUrlLine
  infer_instance

theorem extinf_false_of_hash_false {t : Str}
    (hhash : ("#".toList).isPrefixOf t = false) :
    ("#EXTINF:".toList).isPrefixOf t = false := by
  cases hcase : ("#EXTINF:".toList).isPrefixOf t with
  | false => rfl
  | true =>
    rw [hash_prefix_of_extinf hcase] at hhash
    exact absurd hhash (by decide)

theorem processLine_bareUrl_named {st : PState} {u : Str}
    (hu : isBareUrlLine u) (hn : st.currentName ≠ []) :
    processLine st u
      = (st, some { name := st.currentName, group := st.currentGroup, url := jsTrim u }) := by
  obtain ⟨hcomma, hhash, hscheme⟩ := hu
  have hne : jsTrim u ≠ [] := by
    rcases hscheme with h | h
    · exact isPrefixOf_ne_nil (by decide) h
    · exact isPrefixOf_ne_nil (by decide) h
  have hext := extinf_false_of_hash_false hhash
  simp only [processLine]
  rw [if_neg (show ¬ jsTrim u = [] from hne),
    if_neg (show ¬ (("#EXTINF:".toList).isPrefixOf (jsTrim u) = true) by rw [hext]; decide),
    if_neg (show ¬ (((jsTrim u).contains ',' && !(("#".toList).isPrefixOf (jsTrim u)))
        = true) by rw [hcomma, Bool.false_and]; decide),
    if_pos (show (!(("#".toList).isPrefixOf (jsTrim u))
        && (("http".toList).isPrefixOf (jsTrim u) || ("rtmp".toList).isPrefixOf (jsTrim u)))
        = true by
      rcases hscheme with h | h <;> rw [hhash, h] <;>
        simp only [Bool.not_false, Bool.true_and, Bool.true_or, Bool.or_true]),
    if_pos hn]

theorem processLine_bareUrl_unnamed {st : PState} {u : Str}
    (hu : isBareUrlLine u) (hn : st.currentName = []) :
    processLine st u = (st, none) := by
  obtain ⟨hcomma, hhash, hscheme⟩ := hu
  have hne : jsTrim u ≠ [] := by
    rcases hscheme with h | h
    · exact isPrefixOf_ne_nil (by decide) h
    · exact isPrefixOf_ne_nil (by decide) h
  have hext := extinf_false_of_hash_false hhash
  simp only [processLine]
  rw [if_neg (show ¬ jsTrim u = [] from hne),
    if_neg (show ¬ (("#EXTINF:".toList).isPrefixOf (jsTrim u) = true) by rw [hext]; decide),
    if_neg (show ¬ (((jsTrim u).contains ',' && !(("#".toList).isPrefixOf (jsTrim u)))
        = true) by rw [hcomma, Bool.false_and]; decide),
    if_pos (show (!(("#".toList).isPrefixOf (jsTrim u))
        && (("http".toList).isPrefixOf (jsTrim u) || ("rtmp".toList).isPrefixOf (jsTrim u)))
        = true by
      rcases hscheme with h | h <;> rw [hhash, h] <;>
        simp only [Bool.not_false, Bool.true_and, Bool.true_or, Bool.or_true]),
    if_neg (show ¬ st.currentName ≠ [] from fun hc => hc hn)]

theorem parseLines_cons (st : PState) (l : Str) (ls : List Str) :
    parseLines st (l :: ls)
      = match processLine st l with
        | (st1, some r) => r :: parseLines st1 ls
        | (st1, none) => parseLines st1 ls := rfl

theorem parseLines_bareUrls {st : PState} (hn : st.currentName ≠ []) :
    ∀ {L : List Str}, (∀ u ∈ L, isBareUrlLine u) →
      parseLines st L
        = L.map (fun u =>
            { name := st.currentName, group := st.currentGroup, url := jsTrim u }) := by
  intro L
  induction L with
  | nil => intro _; rfl
  | cons u L ih =>
    intro h
    rw [parseLines_cons, processLine_bareUrl_named (h u (List.mem_cons_self u L)) hn]
    show ({ name := st.currentName, group := st.currentGroup, url := jsTrim u } : PRecord)
        :: parseLines st L = _
    rw [ih (fun u' hu' => h u' (List.mem_cons_of_mem _ hu'))]
    rfl

/-- Conditions under which the line loop treats a raw line as an inline
name-comma-url line. -/
def isInlineLine (u : Str) : Prop :=
  (jsTrim u).contains ',' = true ∧
    ("#".toList).isPrefixOf (jsTrim u) = false ∧
    (("http".toList).isPrefixOf (jsTrim ((splitCh ',' (jsTrim u)).getLastD [])) = true ∨
      ("rtmp".toList).isPrefixOf (jsTrim ((splitCh ',' (jsTrim u)).getLastD [])) = true ∨
      ("p2p".toList).isPrefixOf (jsTrim ((splitCh ',' (jsTrim u)).getLastD [])) = true)

instance (u : Str) : Decidable (isInlineLine u) := by
  unfold isInlineLine
  infer_instance

theorem processLine_inline {st : PState} {u : Str} (hu : isInlineLine u) :
    processLine st u
      = ({ st with currentName := [] },
         some { name := jsTrim (List.intercalate [','] (splitCh ',' (jsTrim u)).dropLast),
                group := "Other".toList,
                url := jsTrim ((splitCh ',' (jsTrim u)).getLastD []) }) := by
  obtain ⟨hcomma, hhash, hscheme⟩ := hu
  have hne : jsTrim u ≠ [] := ne_nil_of_contains hcomma
  have hext := extinf_false_of_hash_false hhash
  simp only [processLine]
  rw [if_neg (show ¬ jsTrim u = [] from hne),
    if_neg (show ¬ (("#EXTINF:".toList).isPrefixOf (jsTrim u) = true) by rw [hext]; decide),
    if_pos (show ((jsTrim u).contains ',' && !(("#".toList).isPrefixOf (jsTrim u)))
        = true by rw [hcomma, hhash]; decide),
    if_pos (show (("http".toList).isPrefixOf (jsTrim ((splitCh ',' (jsTrim u)).getLastD []))
        || ("rtmp".toList).isPrefixOf (jsTrim ((splitCh ',' (jsTrim u)).getLastD []))
        || ("p2p".toList).isPrefixOf (jsTrim ((splitCh ',' (jsTrim u)).getLastD [])))
        = true by
      rcases hscheme with h | h | h <;> rw [h] <;>
        simp only [Bool.true_or, Bool.or_true])]

theorem processLine_extinf_group {st : PState} {u : Str}
    (hext : ("#EXTINF:".toList).isPrefixOf (jsTrim u) = true)
    (hcap : captureAttr ("group-title=\"".toList) (jsTrim u) = none) :
    (processLine st u).1.currentGroup = "Uncategorized".toList := by
  have hne : jsTrim u ≠ [] := isPrefixOf_ne_nil (by decide) hext
  simp only [processLine]
  rw [if_neg (show ¬ jsTrim u = [] from hne), if_pos hext]
  rw [hcap]

/-! ## Claim theorems -/

/-- Claim C1: the normalizer maps CCTV1, CCTV 1, and CCTV-1 to one and the
same canonical key; CCTV-1 [IPv6] HD yields that key too; and the empty
string and the single letter A yield keys of length below two, which the
aggregator rejects: for every aggregation state, category, group, and url,
adding a record with one of those names leaves the state unchanged, so no
channel is created. -/
theorem C1_normalizer_and_rejection :
    normalizeName "CCTV1".toList = "CCTV-1".toList ∧
    normalizeName "CCTV 1".toList = "CCTV-1".toList ∧
    normalizeName "CCTV-1".toList = "CCTV-1".toList ∧
    normalizeName "CCTV-1 [IPv6] HD".toList = "CCTV-1".toList ∧
    (normalizeName "".toList).length < 2 ∧
    (normalizeName "A".toList).length < 2 ∧
    (∀ (category : Category) (st : AggState) (group url : Str),
      addChannelToMap category st "".toList group url = st ∧
      addChannelToMap category st "A".toList group url = st) := by
  refine ⟨by decide, by decide, by decide, by decide, by decide, by decide, ?_⟩
  intro category st group url
  constructor
  · simp only [addChannelToMap]
    rw [if_pos (by decide)]
  · simp only [addChannelToMap]
    rw [if_pos (by decide)]

/-- The noise-token vocabulary with its first two tokens (HD and FHD)
exchanged; a permutation of the vocabulary. -/
def keywordsSwapped : List (List PatChar) :=
  [ patOfString "FHD", patOfString "HD", patOfString "SD", patOfString "UHD",
    patOfString "HEVC",
    [PatChar.lit 'H', PatChar.anyChar, PatChar.lit '2', PatChar.lit '6', PatChar.lit '5'],
    patOfString "H264",
    patOfString "IPTV", patOfString "LIVE", patOfString "直播",
    patOfString "高清", patOfString "超清", patOfString "标清", patOfString "频道",
    patOfString "TEST", patOfString "测试",
    patOfString "IPV6", patOfString "IPV4",
    patOfString "1080P", patOfString "720P", patOfString "4K", patOfString "8K",
    patOfString "50FPS", patOfString "60FPS",
    patOfString "电信", patOfString "联通", patOfString "移动", patOfString "酒店" ]

/-- Claim C9 is false: noise-token removal is not order-independent.  The
vocabulary permutation that exchanges HD and FHD yields a different result on
the input FHD than the vocabulary order of the code, because the token HD
occurs inside the token FHD. -/
theorem C9_counterexample :
    List.Perm keywordsSwapped keywords ∧
    removeKeywords keywordsSwapped "FHD".toList ≠ removeKeywords keywords "FHD".toList := by
  constructor
  · exact List.Perm.swap _ _ _
  · decide

/-- Claim C9 (amended): the removal of the fixed noise-token vocabulary is
order-dependent, because tokens overlap: HD is a substring of FHD, and on the
input FHD the vocabulary order of the code (HD first) leaves F, while a
permutation of the vocabulary removing FHD first leaves the empty string.
The code always removes in its fixed listed order. -/
theorem C9_amended_order_dependent :
    containsSub ("HD".toList) ("FHD".toList) = true ∧
    removeKeywords keywords "FHD".toList = "F".toList ∧
    removeKeywords keywordsSwapped "FHD".toList = [] ∧
    List.Perm keywordsSwapped keywords :=
  ⟨by decide, by decide, by decide, List.Perm.swap _ _ _⟩

/-- Claim C4: aggregation is idempotent at the document level.  For every
playlist document, aggregating it twice yields a catalog with the same
channel count as aggregating it once, and each channel carries exactly the
same url list (duplicate urls are coalesced by exact string equality, never
appended or replaced). -/
theorem C4_aggregation_idempotent (content : Str) (cat : Category) :
    (parseAndAggregate [(content, cat), (content, cat)]).length
        = (parseAndAggregate [(content, cat)]).length ∧
    (parseAndAggregate [(content, cat), (content, cat)]).map
        (fun c => c.sources.map (fun s => s.url))
      = (parseAndAggregate [(content, cat)]).map
        (fun c => c.sources.map (fun s => s.url)) := by
  have h : parseAndAggregate [(content, cat), (content, cat)]
      = parseAndAggregate [(content, cat)] := by
    rw [parseAndAggregate, parseAndAggregate, aggregate_pair_idem]
  rw [h]
  exact ⟨rfl, rfl⟩

/-- Claim C2: the re-ranking scores every source as stated (online scores
100000 minus the latency, error scores 50000, checking scores 100, idle and
offline score 0) and sorts descending by score; consequently any arrangement
of four sources with statuses online at 300 milliseconds, error, checking,
and offline sorts to the status order online, error, checking, offline. -/
theorem C2_scoring_and_ranking :
    (∀ (s : Source) (l : Nat), s.status = Status.online → s.latency = some l →
      getScore s = 100000 - Int.ofNat l) ∧
    (∀ s : Source, s.status = Status.error → getScore s = 50000) ∧
    (∀ s : Source, s.status = Status.checking → getScore s = 100) ∧
    (∀ s : Source, s.status = Status.idle ∨ s.status = Status.offline → getScore s = 0) ∧
    (∀ a b c d : Source, a.status = Status.online → a.latency = some 300 →
      b.status = Status.error → c.status = Status.checking → d.status = Status.offline →
      ∀ l : List Source, List.Perm l [a, b, c, d] →
        (sortSources l).map (fun s => s.status)
          = [Status.online, Status.error, Status.checking, Status.offline]) := by
  refine ⟨?_, ?_, ?_, ?_, ?_⟩
  · intro s l hs hl
    simp [getScore, hs, hl]
  · intro s hs
    simp [getScore, hs]
  · intro s hs
    simp [getScore, hs]
  · intro s hs
    rcases hs with hs | hs <;> simp [getScore, hs]
  · intro a b c d ha hal hb hc hd l hperm
    have hsa : getScore a = 99700 := by simp [getScore, ha, hal]
    have hsb : getScore b = 50000 := by simp [getScore, hb]
    have hsc : getScore c = 100 := by simp [getScore, hc]
    have hsd : getScore d = 0 := by simp [getScore, hd]
    have g1 : srcGt a b := by
      show getScore b < getScore a
      rw [hsa, hsb]; decide
    have g2 : srcGt a c := by
      show getScore c < getScore a
      rw [hsa, hsc]; decide
    have g3 : srcGt a d := by
      show getScore d < getScore a
      rw [hsa, hsd]; decide
    have g4 : srcGt b c := by
      show getScore c < getScore b
      rw [hsb, hsc]; decide
    have g5 : srcGt b d := by
      show getScore d < getScore b
      rw [hsb, hsd]; decide
    have g6 : srcGt c d := by
      show getScore d < getScore c
      rw [hsc, hsd]; decide
    have habcd : List.Pairwise srcGt [a, b, c, d] := by
      refine List.Pairwise.cons ?_ (List.Pairwise.cons ?_ (List.Pairwise.cons ?_
        (List.pairwise_singleton _ _)))
      · intro z hz
        rcases List.mem_cons.1 hz with rfl | hz
        · exact g1
        rcases List.mem_cons.1 hz with rfl | hz
        · exact g2
        rcases List.mem_cons.1 hz with rfl | hz
        · exact g3
        exact absurd hz (List.not_mem_nil z)
      · intro z hz
        rcases List.mem_cons.1 hz with rfl | hz
        · exact g4
        rcases List.mem_cons.1 hz with rfl | hz
        · exact g5
        exact absurd hz (List.not_mem_nil z)
      · intro z hz
        rcases List.mem_cons.1 hz with rfl | hz
        · exact g6
        exact absurd hz (List.not_mem_nil z)
    have hperm2 : List.Perm (sortSources l) [a, b, c, d] :=
      (sortSources_perm l).trans hperm
    have hnodup : (List.map getScore (sortSources l)).Nodup := by
      have hmap := hperm2.map getScore
      have hconc : (List.map getScore [a, b, c, d]).Nodup := by
        simp only [List.map_cons, List.map_nil, hsa, hsb, hsc, hsd]
        decide
      exact hmap.nodup_iff.2 hconc
    have hne : (sortSources l).Pairwise (fun x y => getScore x ≠ getScore y) :=
      List.pairwise_map.1 hnodup
    have hgt : (sortSources l).Pairwise srcGt := by
      have hand := (sortSources_pairwise l).and hne
      exact hand.imp (fun hxy => lt_of_le_of_ne hxy.1 (fun hcon => hxy.2 hcon.symm))
    have heq : sortSources l = [a, b, c, d] := sorted_perm_unique hperm2 hgt habcd
    rw [heq]
    simp [ha, hb, hc, hd]

/-- Witness for C2 at a concrete channel: four concrete sources in reversed
order sort to the status order online, error, checking, offline. -/
theorem C2_scoring_and_ranking_witness :
    (sortSources
      [{ id := 1, url := [], status := Status.offline, latency := none, resolution := none },
       { id := 2, url := [], status := Status.checking, latency := none, resolution := none },
       { id := 3, url := [], status := Status.error, latency := none, resolution := none },
       { id := 4, url := [], status := Status.online, latency := some 300, resolution := none }]).map
      (fun s => s.status)
      = [Status.online, Status.error, Status.checking, Status.offline] :=
  C2_scoring_and_ranking.2.2.2.2
    { id := 4, url := [], status := Status.online, latency := some 300, resolution := none }
    { id := 3, url := [], status := Status.error, latency := none, resolution := none }
    { id := 2, url := [], status := Status.checking, latency := none, resolution := none }
    { id := 1, url := [], status := Status.offline, latency := none, resolution := none }
    rfl rfl rfl rfl rfl _ (by decide)

/-- Claim C3: two playlist documents, each parsing to exactly one record,
whose names normalize to the same usable canonical key but whose urls differ,
aggregate to exactly one channel holding exactly two sources; that channel
takes its name, group (with the empty-group default of Other), and category
from the first-seen record, and the second record contributes only its
source. -/
theorem C3_merge_two_documents (d1 d2 : Str) (c1 c2 : Category) (r1 r2 : PRecord)
    (h1 : parseRecords d1 = [r1]) (h2 : parseRecords d2 = [r2])
    (hkey : normalizeName (jsTrim r2.name) = normalizeName (jsTrim r1.name))
    (hg : ¬(normalizeName (jsTrim r1.name) = []
        ∨ (normalizeName (jsTrim r1.name)).length < 2))
    (hurl : r1.url ≠ r2.url) :
    ∃ ch, parseAndAggregate [(d1, c1), (d2, c2)] = [ch] ∧
      ch.sources.map (fun s => s.url) = [r1.url, r2.url] ∧
      ch.name = jsTrim r1.name ∧
      ch.group = (if r1.group = [] then "Other".toList else r1.group) ∧
      ch.category = c1 := by
  have hagg : aggregatePlaylists [(d1, c1), (d2, c2)]
      = addChannelToMap c2 (addChannelToMap c1 { map := [], nextId := 0 }
          r1.name r1.group r1.url) r2.name r2.group r2.url := by
    simp only [aggregatePlaylists, List.foldl_cons, List.foldl_nil, h1, h2, foldRecords]
  have hdup : ({ id := 0, name := jsTrim r1.name,
                 group := if r1.group = [] then "Other".toList else r1.group,
                 category := c1, sources := [freshSource 1 r1.url],
                 bestSource := none } : Channel).sources.any
        (fun s => s.url == r2.url) = false := by
    simp [freshSource, hurl]
  rw [parseAndAggregate, hagg, addChannelToMap_nil_map hg,
    addChannelToMap_existing_push hkey hg rfl hdup]
  exact ⟨_, rfl, by simp [freshSource], rfl, rfl, rfl⟩

/-- Witness for C3 at two concrete documents: an inline document naming
CCTV-1 and a metadata document naming CCTV 1 with a different url merge into
one channel with both urls, named and categorized by the first document. -/
theorem C3_merge_two_documents_witness :
    ∃ ch, parseAndAggregate
        [("CCTV-1,http://a".toList, Category.china),
         ("#EXTINF:-1 group-title=\"News\",CCTV 1\nhttp://b".toList,
           Category.international)]
        = [ch] ∧
      ch.sources.map (fun s => s.url)
        = [({ name := "CCTV-1".toList, group := "Other".toList,
              url := "http://a".toList } : PRecord).url,
           ({ name := "CCTV 1".toList, group := "News".toList,
              url := "http://b".toList } : PRecord).url] ∧
      ch.name = jsTrim ({ name := "CCTV-1".toList, group := "Other".toList,
                          url := "http://a".toList } : PRecord).name ∧
      ch.group = (if ({ name := "CCTV-1".toList, group := "Other".toList,
                        url := "http://a".toList } : PRecord).group = []
        then "Other".toList
        else ({ name := "CCTV-1".toList, group := "Other".toList,
                url := "http://a".toList } : PRecord).group) ∧
      ch.category = Category.china :=
  C3_merge_two_documents _ _ Category.china Category.international
    { name := "CCTV-1".toList, group := "Other".toList, url := "http://a".toList }
    { name := "CCTV 1".toList, group := "News".toList, url := "http://b".toList }
    (by decide) (by decide) (by decide) (by decide) (by decide)

/-- Concrete catalog used to exhibit the marking-step violation of the
best-source invariant: one channel with one source, built by aggregation. -/
def c5Chs0 : List Channel :=
  parseAndAggregate [("CCTV-1,http://a".toList, Category.china)]

/-- Task list flattened from that catalog. -/
def c5Tasks : List Task := flattenTasks c5Chs0

/-- The catalog after writing back an online probe result at 300
milliseconds for every task: bestSource is set. -/
def c5Chs1 : List Channel :=
  writeBack c5Chs0 (c5Tasks.map (fun t => checkSource t (ProbeOutcome.ok 300 none)))

/-- The catalog after the synchronous marking pass of a following check
cycle. -/
def c5Chs2 : List Channel := markChecking c5Chs1 c5Tasks

/-- Claim C5 is false at the marking step: in the catalog reached by
aggregation, an online write-back, and the synchronous marking pass of the
next cycle, a channel holds a present bestSource that differs from
sources[0] — marking replaced the first source (status checking, latency
cleared) without updating bestSource. -/
theorem C5_counterexample :
    ∃ ch ∈ c5Chs2, ch.bestSource ≠ none ∧ ch.bestSource ≠ ch.sources.head? := by
  decide

/-- Claim C5 (amended): after aggregation bestSource is absent, so the
invariant holds vacuously; and every channel changed by a batch write-back
satisfies bestSource = sources[0] (the head of its source list).  The
synchronous marking pass, however, does not maintain the invariant: it
rewrites sources without touching bestSource (see the counterexample). -/
theorem C5_amended_invariant :
    (∀ (pls : List (Str × Category)) (ch : Channel),
      ch ∈ parseAndAggregate pls → ch.bestSource = none) ∧
    (∀ (chs : List Channel) (rs : List ProbeResult) (ch : Channel),
      ch ∈ writeBack chs rs → ch ∈ chs ∨ ch.bestSource = ch.sources.head?) := by
  constructor
  · intro pls ch h
    exact (parseAndAggregate_inv h).1
  · intro chs rs ch h
    exact writeBack_mem h

/-- Witness for C5 at the concrete pipeline: the aggregated channel has no
best source, and the channel written back with an online result satisfies
the invariant. -/
theorem C5_amended_invariant_witness :
    ({ id := 0, name := "CCTV-1".toList, group := "Other".toList,
       category := Category.china,
       sources := [{ id := 1, url := "http://a".toList, status := Status.idle,
                     latency := none, resolution := none }],
       bestSource := none } : Channel).bestSource = none ∧
    (({ id := 0, name := "CCTV-1".toList, group := "Other".toList,
        category := Category.china,
        sources := [{ id := 1, url := "http://a".toList, status := Status.online,
                      latency := some 300, resolution := none }],
        bestSource := some { id := 1, url := "http://a".toList, status := Status.online,
                             latency := some 300, resolution := none } } : Channel) ∈ c5Chs0 ∨
      ({ id := 0, name := "CCTV-1".toList, group := "Other".toList,
         category := Category.china,
         sources := [{ id := 1, url := "http://a".toList, status := Status.online,
                       latency := some 300, resolution := none }],
         bestSource := some { id := 1, url := "http://a".toList, status := Status.online,
                              latency := some 300, resolution := none } } : Channel).bestSource
        = ({ id := 0, name := "CCTV-1".toList, group := "Other".toList,
             category := Category.china,
             sources := [{ id := 1, url := "http://a".toList, status := Status.online,
                           latency := some 300, resolution := none }],
             bestSource := some { id := 1, url := "http://a".toList,
                                  status := Status.online, latency := some 300,
                                  resolution := none } } : Channel).sources.head?) :=
  ⟨C5_amended_invariant.1 [("CCTV-1,http://a".toList, Category.china)] _ (by decide),
   C5_amended_invariant.2 c5Chs0
     (c5Tasks.map (fun t => checkSource t (ProbeOutcome.ok 300 none))) _ (by decide)⟩

/-- Claim C6 is false: a metadata line without a group-title attribute yields
a channel whose group is Uncategorized, not Other. -/
theorem C6_counterexample :
    (parseAndAggregate [("#EXTINF:-1,CCTV-1\nhttp://x".toList, Category.china)]).map
        (fun c => c.group) = ["Uncategorized".toList] ∧
    ("Uncategorized".toList : Str) ≠ "Other".toList := by
  exact ⟨by decide, by decide⟩

/-- Claim C6 (amended): a record parsed from an inline name-comma-url line
carries the group label Other, and a channel created from a record whose
group label is the empty string gets group Other; but a metadata line without
a group-title attribute sets the pending group to the non-empty label
Uncategorized, so a channel created from it gets group Uncategorized, not
Other. -/
theorem C6_amended_group_defaults :
    (∀ (st : PState) (u : Str), isInlineLine u →
      (processLine st u).2
        = some { name := jsTrim (List.intercalate [','] (splitCh ',' (jsTrim u)).dropLast),
                 group := "Other".toList,
                 url := jsTrim ((splitCh ',' (jsTrim u)).getLastD []) }) ∧
    (∀ (st : PState) (u : Str),
      ("#EXTINF:".toList).isPrefixOf (jsTrim u) = true →
      captureAttr ("group-title=\"".toList) (jsTrim u) = none →
      (processLine st u).1.currentGroup = "Uncategorized".toList) ∧
    (∀ (category : Category) (name group url : Str),
      ¬(normalizeName (jsTrim name) = [] ∨ (normalizeName (jsTrim name)).length < 2) →
      ∃ ch, mlookup (normalizeName (jsTrim name))
          (addChannelToMap category { map := [], nextId := 0 } name group url).map
          = some ch ∧
        ch.group = (if group = [] then "Other".toList else group)) ∧
    (parseAndAggregate [("CCTV-1,http://a".toList, Category.china)]).map (fun c => c.group)
      = ["Other".toList] := by
  refine ⟨?_, ?_, ?_, by decide⟩
  · intro st u hu
    rw [processLine_inline hu]
  · intro st u hext hcap
    exact processLine_extinf_group hext hcap
  · intro category name group url hgd
    rw [addChannelToMap_nil_map hgd]
    exact ⟨_, mlookup_cons_self _ _ _, rfl⟩

/-- Witness for C6 at concrete lines: an inline line emits group Other, a
bare metadata line pends group Uncategorized, and creating a channel with an
empty group label stores Other. -/
theorem C6_amended_group_defaults_witness :
    (processLine { currentName := [], currentGroup := [] } "CCTV-1,http://a".toList).2
      = some { name := jsTrim (List.intercalate [',']
                 (splitCh ',' (jsTrim "CCTV-1,http://a".toList)).dropLast),
               group := "Other".toList,
               url := jsTrim ((splitCh ',' (jsTrim "CCTV-1,http://a".toList)).getLastD []) } ∧
    (processLine { currentName := [], currentGroup := [] }
        "#EXTINF:-1,CCTV-1".toList).1.currentGroup = "Uncategorized".toList ∧
    (∃ ch, mlookup (normalizeName (jsTrim "CCTV-1".toList))
        (addChannelToMap Category.china { map := [], nextId := 0 }
          "CCTV-1".toList [] "http://a".toList).map = some ch ∧
      ch.group = (if ([] : Str) = [] then "Other".toList else [])) :=
  ⟨C6_amended_group_defaults.1 _ _ (by decide),
   C6_amended_group_defaults.2.1 _ _ (by decide) (by decide),
   C6_amended_group_defaults.2.2.1 Category.china "CCTV-1".toList [] "http://a".toList
     (by decide)⟩

/-- Claim C7: the latency field is present only when the status is online,
after every operation.  Aggregation creates every source idle with no
latency; the marking update sets status checking and clears latency (so a
marked source carries none); a classified probe result carries a latency
only when its status is online (offline and error outcomes carry none; the
elapsed time of a successful response is modelled as a natural number, hence
nonnegative); and both the marking pass and the batch write-back preserve
the rule across the whole catalog. -/
theorem C7_latency_only_online :
    (∀ (pls : List (Str × Category)) (ch : Channel) (s : Source),
      ch ∈ parseAndAggregate pls → s ∈ ch.sources →
        s.status = Status.idle ∧ s.latency = none) ∧
    (∀ s : Source, (markSourceChecking s).status = Status.checking ∧
      (markSourceChecking s).latency = none) ∧
    (∀ (t : Task) (o : ProbeOutcome),
      (checkSource t o).latency ≠ none → (checkSource t o).status = Status.online) ∧
    (∀ (chs : List Channel) (ts : List Task) (ch : Channel) (s : Source),
      (∀ ch' ∈ chs, ∀ s' ∈ ch'.sources, latencyOnlyWhenOnline s') →
      ch ∈ markChecking chs ts → s ∈ ch.sources → latencyOnlyWhenOnline s) ∧
    (∀ (chs : List Channel) (rs : List ProbeResult) (ch : Channel) (s : Source),
      (∀ ch' ∈ chs, ∀ s' ∈ ch'.sources, latencyOnlyWhenOnline s') →
      (∀ r ∈ rs, r.latency ≠ none → r.status = Status.online) →
      ch ∈ writeBack chs rs → s ∈ ch.sources → latencyOnlyWhenOnline s) := by
  refine ⟨?_, ?_, ?_, ?_, ?_⟩
  · intro pls ch s hch hs
    have h := (parseAndAggregate_inv hch).2 s hs
    exact ⟨h.1, h.2.1⟩
  · intro s
    exact ⟨rfl, rfl⟩
  · intro t o h
    cases o with
    | ok lat chunk => rfl
    | notOk => exact absurd rfl h
    | failed => exact absurd rfl h
  · intro chs ts ch s h hch hs
    exact markChecking_latInv ts h ch hch s hs
  · intro chs rs ch s h hr hch hs
    exact writeBack_latInv rs h hr ch hch s hs

/-- Concrete source for the C7 witness: online at five milliseconds. -/
def w7Src : Source :=
  { id := 1, url := [], status := Status.online, latency := some 5, resolution := none }

/-- Concrete one-channel catalog for the C7 witness. -/
def w7Chs : List Channel :=
  [{ id := 0, name := [], group := [], category := Category.china,
     sources := [w7Src], bestSource := none }]

/-- Concrete task for the C7 witness. -/
def w7Task : Task := { channelId := 0, sourceId := 1, url := [] }

/-- The catalog channel after the marking pass, for the C7 witness. -/
def w7Marked : Channel :=
  { id := 0, name := [], group := [], category := Category.china,
    sources := [markSourceChecking w7Src], bestSource := none }

/-- The offline source written back in the C7 witness. -/
def w7Off : Source :=
  { id := 1, url := [], status := Status.offline, latency := none, resolution := none }

/-- The catalog channel after an offline write-back, for the C7 witness. -/
def w7Written : Channel :=
  { id := 0, name := [], group := [], category := Category.china,
    sources := [w7Off], bestSource := some w7Off }

/-- The aggregated source of the C7 witness. -/
def w7Agg : Source :=
  { id := 1, url := "http://a".toList, status := Status.idle, latency := none,
    resolution := none }

/-- The aggregated channel of the C7 witness. -/
def w7AggCh : Channel :=
  { id := 0, name := "CCTV-1".toList, group := "Other".toList,
    category := Category.china, sources := [w7Agg], bestSource := none }

/-- Witness for C7 at concrete values: the aggregated source is idle with no
latency; the marking update yields checking with no latency; and both passes
preserve the rule on concrete catalogs. -/
theorem C7_latency_only_online_witness :
    (w7Agg.status = Status.idle ∧ w7Agg.latency = none) ∧
    ((markSourceChecking w7Src).status = Status.checking ∧
      (markSourceChecking w7Src).latency = none) ∧
    latencyOnlyWhenOnline (markSourceChecking w7Src) ∧
    latencyOnlyWhenOnline w7Off :=
  ⟨C7_latency_only_online.1 [("CCTV-1,http://a".toList, Category.china)] w7AggCh w7Agg
      (by decide) (by decide),
   C7_latency_only_online.2.1 w7Src,
   C7_latency_only_online.2.2.2.1 w7Chs [w7Task] w7Marked (markSourceChecking w7Src)
      (by decide) (by decide) (by decide),
   C7_latency_only_online.2.2.2.2 w7Chs [checkSource w7Task ProbeOutcome.notOk]
      w7Written w7Off (by decide) (by decide) (by decide) (by decide)⟩

/-- Claim C8: a bare URL line (after trimming: no embedded comma, no comment
marker, a recognized scheme prefix) emits exactly one record carrying the
pending name and group and leaves the pending state unchanged; when no name
is pending the line is dropped and nothing is emitted; consequently a pending
state followed by k bare URL lines yields k records all carrying that pending
name and group. -/
theorem C8_bare_url_lines :
    (∀ (st : PState) (u : Str), isBareUrlLine u → st.currentName ≠ [] →
      processLine st u
        = (st, some { name := st.currentName, group := st.currentGroup,
                      url := jsTrim u })) ∧
    (∀ (st : PState) (u : Str), isBareUrlLine u → st.currentName = [] →
      processLine st u = (st, none)) ∧
    (∀ (st : PState) (L : List Str), (∀ u ∈ L, isBareUrlLine u) → st.currentName ≠ [] →
      parseLines st L
        = L.map (fun u =>
            { name := st.currentName, group := st.currentGroup, url := jsTrim u })) := by
  refine ⟨?_, ?_, ?_⟩
  · intro st u hu hn
    exact processLine_bareUrl_named hu hn
  · intro st u hu hn
    exact processLine_bareUrl_unnamed hu hn
  · intro st L hL hn
    exact parseLines_bareUrls hn hL

/-- Witness for C8 at a concrete pending state and two bare URL lines: both
lines emit records with the pending name and group. -/
theorem C8_bare_url_lines_witness :
    parseLines { currentName := "CCTV-1".toList, currentGroup := "News".toList }
        ["http://a".toList, "rtmp://b".toList]
      = (["http://a".toList, "rtmp://b".toList] : List Str).map
          (fun u => { name := "CCTV-1".toList, group := "News".toList,
                      url := jsTrim u }) :=
  C8_bare_url_lines.2.2 _ _ (by decide) (by decide)

/-- Claim C10: the batch write-back unconditionally overwrites the probed
source's resolution with the value of the current cycle, which is absent for
a non-success outcome, a failure, an unreadable body, and a marker-less first
chunk; so a channel changed by a write-back holds the probed source with all
three fields taken from the result record, a previously stored resolution
label included. -/
theorem C10_resolution_overwrite :
    (∀ (r : ProbeResult) (s : Source), (updateSource r s).resolution = r.resolution) ∧
    (∀ t : Task, (checkSource t ProbeOutcome.notOk).resolution = none ∧
      (checkSource t ProbeOutcome.failed).resolution = none) ∧
    (∀ (t : Task) (lat : Nat), (checkSource t (ProbeOutcome.ok lat none)).resolution = none) ∧
    (∀ (t : Task) (lat : Nat) (chunk : Str), resolutionHeights chunk.length chunk = [] →
      (checkSource t (ProbeOutcome.ok lat (some chunk))).resolution = none) ∧
    (∀ (chs : List Channel) (r : ProbeResult) (ch : Channel), ch ∈ applyResult chs r →
      ch ∈ chs ∨ ∃ s ∈ ch.sources, s.id = r.sourceId ∧ s.resolution = r.resolution ∧
        s.status = r.status ∧ s.latency = r.latency) := by
  refine ⟨?_, ?_, ?_, ?_, ?_⟩
  · intro r s
    rfl
  · intro t
    exact ⟨rfl, rfl⟩
  · intro t lat
    rfl
  · intro t lat chunk h
    simp [checkSource, sniffResolution, h]
  · intro chs r ch hch
    rcases applyToFirst_mem hch with h' | ⟨x, hx, hpx, rfl⟩
    · exact Or.inl h'
    · by_cases hany : x.sources.any (fun s => s.id == r.sourceId) = true
      · right
        rcases List.any_eq_true.1 hany with ⟨x0, hx0, hpx0⟩
        rcases @applyToFirst_hit Source (fun s => s.id == r.sourceId) (updateSource r)
          x.sources ⟨x0, hx0, hpx0⟩ with ⟨x1, hx1, hpx1, hmem⟩
        refine ⟨updateSource r x1, ?_, ?_, rfl, rfl, rfl⟩
        · simp only [hany, if_true]
          exact mem_sortBy.2 hmem
        · have : (x1.id == r.sourceId) = true := hpx1
          simpa using this
      · left
        simpa [hany] using hx

/-- Concrete task for the C10 witness. -/
def w10Task : Task := { channelId := 0, sourceId := 1, url := [] }

/-- Concrete source holding a previously sniffed 1080P label, for the C10
witness. -/
def w10Src : Source :=
  { id := 1, url := [], status := Status.online, latency := some 9,
    resolution := some "1080P".toList }

/-- Concrete one-channel catalog for the C10 witness. -/
def w10Chs : List Channel :=
  [{ id := 0, name := [], group := [], category := Category.china,
     sources := [w10Src], bestSource := none }]

/-- The error result written back in the C10 witness. -/
def w10Result : ProbeResult := checkSource w10Task ProbeOutcome.failed

/-- The probed source after the erasing write-back of the C10 witness. -/
def w10OutSrc : Source :=
  { id := 1, url := [], status := Status.error, latency := none, resolution := none }

/-- The catalog channel after the erasing write-back of the C10 witness. -/
def w10Out : Channel :=
  { id := 0, name := [], group := [], category := Category.china,
    sources := [w10OutSrc], bestSource := some w10OutSrc }

/-- Witness for C10: a marker-less chunk sniffs no resolution, and an error
write-back over a source holding a 1080P label leaves the updated channel
with that label erased. -/
theorem C10_resolution_overwrite_witness :
    (checkSource w10Task (ProbeOutcome.ok 5 (some "no marker here".toList))).resolution
        = none ∧
    (w10Out ∈ w10Chs ∨
      ∃ s ∈ w10Out.sources, s.id = w10Result.sourceId ∧
        s.resolution = w10Result.resolution ∧ s.status = w10Result.status ∧
        s.latency = w10Result.latency) :=
  ⟨C10_resolution_overwrite.2.2.2.1 w10Task 5 "no marker here".toList (by decide),
   C10_resolution_overwrite.2.2.2.2 w10Chs w10Result w10Out (by decide)⟩

end TvSS
